import Mathlib

/-!
Verification of the concurrent claim orchestrator of the scroll-bye-bye
repository (src/claimer.rs, src/proof.rs, src/utils.rs, src/config.rs).

The orchestrator `claim_for_all` is embedded as explicit state passing:

* the *fill* phase models the `for (wallet, recipient) in wallets.zip(recipients)`
  loop: sleep `spawn_task_delay`, pick a provider (`providers.choose(..).unwrap()`,
  which panics on an empty pool), then `handles.spawn(..)`;
* the *drain* phase models the `while let Some(res) = handles.join_next().await`
  loop: `res.unwrap()` (which panics when the joined task panicked), log on `Ok`,
  and on `Err` pick a provider again and respawn the same work unit.

Concurrency is modelled by an adversarial schedule: each drain step names which
in-flight task completes next (`pick`, reduced modulo the registry size) and how
much wall-clock time passed before that completion arrived (`dt`).  The outcome
of a completed task is given by a behaviour oracle `behav wu n`, the outcome of
the n-th attempt of work unit `wu` (claim_and_transfer is an external effectful
call; its result per attempt is environment determined).  The endpoint actually
chosen by `choose` never influences control flow (any successfully chosen
provider is used the same way), so endpoints are not recorded per task; only
the panic of `choose(..).unwrap()` on an empty pool is modelled.  The respawn
in the drain loop also calls `choose(..).unwrap()`, but it is only reachable
after the fill loop chose from the same pool at least once, so the pool is
nonempty there; this second unwrap is therefore not a separate panic source.
-/

namespace ScrollByeBye

/-- One (wallet, recipient) pair, zipped by position in `claim_for_all`
(src/claimer.rs line 242).  Wallets and recipient addresses are opaque
identifiers here, represented by naturals. -/
structure WorkUnit where
  wallet : Nat
  recipient : Nat
deriving DecidableEq, Repr

/-- A configured provider: in the source, an RPC url wrapped into a retrying
HTTP provider.  Only its identity matters to the orchestrator. -/
abbrev Endpoint := String

/-- The panics that `claim_for_all` itself can hit: a malformed RPC url in
`init_providers` (`rpc_url.parse().unwrap()`), `providers.choose(..).unwrap()`
on an empty provider list, and `res.unwrap()` on a join error in the drain
loop. -/
inductive Panicked where
  | urlParseFailed
  | providerChooseFailed
  | joinUnwrapFailed
deriving DecidableEq, Repr

/-- Outcome of one completed `claim_and_transfer` task as seen by the drain
loop: `Ok(_)`, `Err(e)`, or an abnormal termination of the task (a panic inside
the workflow step, surfaced as a `JoinError`). -/
inductive TaskOutcome where
  | ok
  | err
  | panicked
deriving DecidableEq, Repr

/-- Orchestrator state.  `pending` is the `JoinSet` contents (one entry per
in-flight task, in an arbitrary but fixed bookkeeping order), `successes` and
`failObs` record success / failure observations of the drain loop in
observation order, `spawns` records every task ever spawned together with its
spawn time, and `clock` is elapsed wall-clock time in milliseconds. -/
structure OrchState where
  pending : List WorkUnit
  successes : List WorkUnit
  failObs : List WorkUnit
  spawns : List (WorkUnit × Nat)
  clock : Nat
deriving DecidableEq, Repr

/-- The state at entry of `claim_for_all`: nothing spawned, nothing observed. -/
def initState : OrchState := ⟨[], [], [], [], 0⟩

/-- `wallets.into_iter().zip(recipients.into_iter())` (src/claimer.rs 242):
pairs by position, silently stopping at the shorter sequence. -/
def workUnits (wallets recipients : List Nat) : List WorkUnit :=
  (wallets.zip recipients).map fun p => ⟨p.1, p.2⟩

/-- `init_providers` (src/claimer.rs 216-234): maps every configured url
through `rpc_url.parse().unwrap()`; `parseUrl` models `Url::parse`, `none`
meaning the unwrap panics.  An empty url list yields an empty pool without
any error. -/
def initProviders (parseUrl : String → Option Endpoint) (rpcUrls : List String) :
    Option (List Endpoint) :=
  rpcUrls.mapM parseUrl

/-- One iteration of the fill loop (src/claimer.rs 242-250): sleep
`spawn_task_delay` milliseconds, then `providers.choose(&mut rng).unwrap()`
(panics iff the pool is empty), then spawn the task for this work unit. -/
def fillStep (D : Nat) (pool : List Endpoint) (s : OrchState) (wu : WorkUnit) :
    Except (Panicked × OrchState) OrchState :=
  if pool.isEmpty then
    .error (.providerChooseFailed, { s with clock := s.clock + D })
  else
    .ok { s with
          clock := s.clock + D
          pending := s.pending ++ [wu]
          spawns := s.spawns ++ [(wu, s.clock + D)] }

/-- The whole fill loop over the zipped work units. -/
def fillPhase (D : Nat) (pool : List Endpoint) :
    List WorkUnit → OrchState → Except (Panicked × OrchState) OrchState
  | [], s => .ok s
  | wu :: rest, s =>
    match fillStep D pool s wu with
    | .error e => .error e
    | .ok s' => fillPhase D pool rest s'

/-- The spawn records the fill loop appends when started at clock `t0`:
work unit i is admitted at time t0 + (i+1)·D. -/
def admissions (D : Nat) : Nat → List WorkUnit → List (WorkUnit × Nat)
  | _, [] => []
  | t0, wu :: rest => (wu, t0 + D) :: admissions D (t0 + D) rest

/-- One entry of the adversarial completion schedule: which in-flight task
completes next (`pick`, taken modulo the registry size) and how long the drain
loop waited in `join_next` before that completion arrived. -/
structure Compl where
  pick : Nat
  dt : Nat
deriving DecidableEq, Repr

/-- Result of one drain iteration: continue with a new state, or the
orchestrator itself panics (`res.unwrap()` on a panicked task). -/
inductive StepRes where
  | cont (s : OrchState)
  | panic (s : OrchState)
deriving DecidableEq, Repr

/-- The work unit of the task the schedule entry selects from a nonempty
registry. -/
def pickedWU (c : Compl) (p0 : WorkUnit) (ps : List WorkUnit) : WorkUnit :=
  (p0 :: ps).get ⟨c.pick % (p0 :: ps).length, Nat.mod_lt _ (Nat.succ_pos _)⟩

/-- One iteration of the drain loop body (src/claimer.rs 252-269) on a
nonempty registry `p0 :: ps`.  The selected task is removed from the
`JoinSet`; the number of failures already observed for its work unit is its
attempt index, and the behaviour oracle yields this attempt's outcome.
`Ok` records a success; `Err` immediately respawns the same work unit (a fresh
`choose` on the same nonempty pool, no sleep); a task panic makes `res.unwrap()`
panic, tearing the whole loop down. -/
def drainStepAux (behav : WorkUnit → Nat → TaskOutcome) (s : OrchState) (c : Compl)
    (p0 : WorkUnit) (ps : List WorkUnit) : StepRes :=
  match behav (pickedWU c p0 ps) (s.failObs.count (pickedWU c p0 ps)) with
  | .ok => .cont { s with
      pending := (p0 :: ps).eraseIdx (c.pick % (p0 :: ps).length)
      successes := s.successes ++ [pickedWU c p0 ps]
      clock := s.clock + c.dt }
  | .err => .cont { s with
      pending := (p0 :: ps).eraseIdx (c.pick % (p0 :: ps).length) ++ [pickedWU c p0 ps]
      failObs := s.failObs ++ [pickedWU c p0 ps]
      spawns := s.spawns ++ [(pickedWU c p0 ps, s.clock + c.dt)]
      clock := s.clock + c.dt }
  | .panicked => .panic { s with
      pending := (p0 :: ps).eraseIdx (c.pick % (p0 :: ps).length)
      clock := s.clock + c.dt }

/-- One drain iteration on an arbitrary state (no-op on an empty registry,
where `join_next` would have returned `None` instead). -/
def drainStep (behav : WorkUnit → Nat → TaskOutcome) (s : OrchState) (c : Compl) :
    StepRes :=
  match s.pending with
  | [] => .cont s
  | p0 :: ps => drainStepAux behav s c p0 ps

/-- How a run of the drain loop under a finite schedule ends: `exited` when
`join_next` returned `None` (registry empty), `running` when the schedule is
exhausted with tasks still in flight (the loop is still going), `panicked`
when `res.unwrap()` propagated a task panic. -/
inductive DrainResult where
  | exited (s : OrchState)
  | running (s : OrchState)
  | panicked (s : OrchState)
deriving DecidableEq, Repr

/-- The orchestrator state carried by any drain result. -/
def DrainResult.state : DrainResult → OrchState
  | .exited s => s
  | .running s => s
  | .panicked s => s

/-- The drain loop `while let Some(res) = handles.join_next().await`
(src/claimer.rs 252-269), run under a finite completion schedule. -/
def drainPhase (behav : WorkUnit → Nat → TaskOutcome) :
    OrchState → List Compl → DrainResult
  | s, [] => if s.pending = [] then .exited s else .running s
  | s, c :: cs =>
    if s.pending = [] then .exited s
    else
      match drainStep behav s c with
      | .cont s' => drainPhase behav s' cs
      | .panic s' => .panicked s'

/-- `claim_for_all` (src/claimer.rs 213-270) end to end: build the provider
pool, fill, then drain under the given schedule. -/
def claim_for_all (parseUrl : String → Option Endpoint) (D : Nat)
    (rpcUrls : List String) (behav : WorkUnit → Nat → TaskOutcome)
    (wallets recipients : List Nat) (cs : List Compl) :
    Except (Panicked × OrchState) DrainResult :=
  match initProviders parseUrl rpcUrls with
  | none => .error (.urlParseFailed, initState)
  | some pool =>
    match fillPhase D pool (workUnits wallets recipients) initState with
    | .error e => .error e
    | .ok s0 => .ok (drainPhase behav s0 cs)

/-! ## The workflow step: `claim_and_transfer` (src/claimer.rs 173-211)

Every network effect of `claim_and_transfer` is modelled by an oracle field of
`ChainWorld`: `.error e` is the `?`-propagated failure of that call.
`send_transaction` (src/claimer.rs 54-100) either fails with an error before a
receipt is obtained, or yields `Ok(receipt.status())` for a transaction that
was mined; a mined transaction is recorded here as submitted, paired with its
receipt status (`false` = reverted on chain).  Note that both `claim` and
`transfer` forward that boolean and that `claim_and_transfer` discards it with
`claim(..).await?;` / `transfer(..).await?;`.  The HTTP proof fetch plus
`extract_proof_and_amount` are abstracted as one oracle yielding the merkle
proof and the allocation; the 500 ms sleep after the claim is time only and is
elided. -/

/-- A transaction submitted (mined, receipt obtained) by the workflow step:
`claimCall` to the distributor contract or `transferCall` to the token
contract.  Amounts are naturals (the code does no U256 arithmetic on them, so
no overflow reduction is needed). -/
inductive Tx where
  | claimTx (account : Nat) (amount : Nat) (merkleProof : List Nat)
  | transferTx (toAddr : Nat) (amount : Nat)
deriving DecidableEq, Repr

/-- The environment one invocation of `claim_and_transfer` runs against. -/
structure ChainWorld where
  /-- `hasClaimed(wallet_address).call()` on the distributor contract. -/
  hasClaimed : Except String Bool
  /-- `get_token_balance` = `balanceOf(wallet_address).call()` on the token. -/
  balanceOf : Except String Nat
  /-- `get_proof` followed by `extract_proof_and_amount`: merkle proof and
  allocation amount. -/
  proofAndAmount : Except String (List Nat × Nat)
  /-- Receipt status of the claim transaction once mined; `.error` when
  `send_transaction` fails without a receipt. -/
  claimReceipt : Except String Bool
  /-- Receipt status of the transfer transaction, same convention. -/
  transferReceipt : Except String Bool
deriving Repr

/-- The `let allocation = match has_claimed { .. }` block (src/claimer.rs
193-204): when already claimed, read the token balance; otherwise fetch
proof and allocation, submit the claim transaction (discarding its receipt
status), and use the fetched allocation.  Returns the allocation (or the
propagated error) together with the transactions submitted so far. -/
def computeAllocation (w : ChainWorld) (walletAddr : Nat) (hasClaimed : Bool) :
    Except String Nat × List (Tx × Bool) :=
  match hasClaimed with
  | true =>
    match w.balanceOf with
    | .error e => (.error e, [])
    | .ok bal => (.ok bal, [])
  | false =>
    match w.proofAndAmount with
    | .error e => (.error e, [])
    | .ok pa =>
      match w.claimReceipt with
      | .error e => (.error e, [])
      | .ok status => (.ok pa.2, [(Tx.claimTx walletAddr pa.2 pa.1, status)])

/-- `claim_and_transfer` (src/claimer.rs 173-211): eligibility check,
conditional claim, then `if allocation != U256::ZERO` a transfer of the
allocation to the recipient (its receipt status also discarded).  The result
is the returned `eyre::Result<()>` paired with all submitted transactions and
their receipt statuses. -/
def claim_and_transfer (w : ChainWorld) (walletAddr recipient : Nat) :
    Except String Unit × List (Tx × Bool) :=
  match w.hasClaimed with
  | .error e => (.error e, [])
  | .ok hc =>
    match computeAllocation w walletAddr hc with
    | (.error e, txs) => (.error e, txs)
    | (.ok alloc, txs) =>
      if alloc ≠ 0 then
        match w.transferReceipt with
        | .error e => (.error e, txs)
        | .ok st => (.ok (), txs ++ [(Tx.transferTx recipient alloc, st)])
      else (.ok (), txs)

/-! ## HTTP retries: `send_http_request_with_retries` (src/proof.rs 67-87) -/

/-- The `for _ in 0..max_retries` loop: `attempt i` is the outcome of the
i-th call of `send_http_request` (the 3 s sleep after a failed attempt is
time only and is elided).  Returns the Rust function's result paired with the
number of attempts actually performed (the second component counts attempts:
it starts at the index `i` of the next attempt). -/
def retryLoop (attempt : Nat → Except String String) :
    Nat → Nat → Except String String × Nat
  | 0, i => (.error "Amount of tries exceeded", i)
  | fuel + 1, i =>
    match attempt i with
    | .ok r => (.ok r, i + 1)
    | .error _ => retryLoop attempt fuel (i + 1)

/-- `send_http_request_with_retries` with `max_retries.unwrap_or(5)`. -/
def send_http_request_with_retries (attempt : Nat → Except String String)
    (maxRetries : Option Nat) : Except String String × Nat :=
  retryLoop attempt (maxRetries.getD 5) 0

/-! ## Helper lemmas -/

lemma count_eraseIdx_add {α : Type} [DecidableEq α] :
    ∀ (l : List α) (i : Nat) (hi : i < l.length) (a : α),
      (l.eraseIdx i).count a + (if a = l.get ⟨i, hi⟩ then 1 else 0) = l.count a
  | x :: xs, 0, _, a => by
      simp only [List.eraseIdx_cons_zero, List.get_cons_zero, List.count_cons]
      rcases eq_or_ne a x with h | h
      · simp [h]
      · simp [h, Ne.symm h]
  | x :: xs, i + 1, hi, a => by
      have ih := count_eraseIdx_add xs i (by simpa using hi) a
      simp only [List.eraseIdx_cons_succ, List.count_cons, List.get_cons_succ] at ih ⊢
      omega

lemma fillPhase_ok_fields (D : Nat) (pool : List Endpoint) (wus : List WorkUnit) :
    ∀ s s' : OrchState, fillPhase D pool wus s = .ok s' →
      s'.pending = s.pending ++ wus ∧ s'.successes = s.successes ∧
      s'.failObs = s.failObs ∧ s'.spawns = s.spawns ++ admissions D s.clock wus ∧
      s'.clock = s.clock + wus.length * D := by
  induction wus with
  | nil =>
    intro s s' h
    simp only [fillPhase, Except.ok.injEq] at h
    subst h
    simp [admissions]
  | cons wu rest ih =>
    intro s s' h
    by_cases hp : pool.isEmpty
    · simp [fillPhase, fillStep, hp] at h
    · simp only [fillPhase, fillStep, hp, Bool.false_eq_true, if_false, if_neg] at h
      obtain ⟨h1, h2, h3, h4, h5⟩ := ih _ _ h
      refine ⟨?_, by simpa using h2, by simpa using h3, ?_, ?_⟩
      · rw [h1]; simp
      · rw [h4]; simp [admissions]
      · rw [h5]; simp [Nat.succ_mul]; omega

lemma fillPhase_isOk (D : Nat) (pool : List Endpoint) (hpool : pool ≠ [])
    (wus : List WorkUnit) : ∀ s : OrchState, ∃ s', fillPhase D pool wus s = .ok s' := by
  have hp : pool.isEmpty = false := by
    cases pool with
    | nil => exact absurd rfl hpool
    | cons a l => rfl
  induction wus with
  | nil => intro s; exact ⟨s, rfl⟩
  | cons wu rest ih =>
    intro s
    obtain ⟨s', h⟩ := ih { s with
      clock := s.clock + D
      pending := s.pending ++ [wu]
      spawns := s.spawns ++ [(wu, s.clock + D)] }
    exact ⟨s', by simp [fillPhase, fillStep, hp, h]⟩

lemma fillPhase_empty_pool (D : Nat) (wu : WorkUnit) (rest : List WorkUnit)
    (s : OrchState) :
    fillPhase D [] (wu :: rest) s =
      .error (.providerChooseFailed, { s with clock := s.clock + D }) := by
  simp [fillPhase, fillStep]

lemma admissions_map_fst (D : Nat) : ∀ (t : Nat) (wus : List WorkUnit),
    (admissions D t wus).map Prod.fst = wus
  | _, [] => rfl
  | t, wu :: rest => by simp [admissions, admissions_map_fst D (t + D) rest]

lemma admissions_chain (D : Nat) : ∀ (wus : List WorkUnit) (t : Nat),
    List.Chain' (fun x y => y = x + D) ((admissions D t wus).map Prod.snd)
  | [], _ => by simp [admissions]
  | [_], _ => by simp [admissions]
  | wu :: wu' :: rest, t => by
      have ih := admissions_chain D (wu' :: rest) (t + D)
      simp only [admissions, List.map_cons] at ih ⊢
      exact List.chain'_cons.mpr ⟨rfl, ih⟩

lemma drainStep_eq_aux (behav : WorkUnit → Nat → TaskOutcome) (s : OrchState)
    (c : Compl) (p0 : WorkUnit) (ps : List WorkUnit) (hp : s.pending = p0 :: ps) :
    drainStep behav s c = drainStepAux behav s c p0 ps := by
  simp [drainStep, hp]

lemma count_append_single {α : Type} [DecidableEq α] (l : List α) (x a : α) :
    (l ++ [x]).count a = l.count a + (if a = x then 1 else 0) := by
  rcases eq_or_ne a x with h | h
  · simp [List.count_append, h]
  · simp [List.count_append, h, Ne.symm h]

lemma drainStep_cont_spec (behav : WorkUnit → Nat → TaskOutcome) (s : OrchState)
    (c : Compl) (s' : OrchState) (hp : s.pending ≠ [])
    (h : drainStep behav s c = .cont s') :
    ∃ wu, wu ∈ s.pending ∧
      ((behav wu (s.failObs.count wu) = .ok ∧
        s'.successes = s.successes ++ [wu] ∧ s'.failObs = s.failObs ∧
        s'.spawns = s.spawns ∧
        ∀ a, s'.pending.count a + (if a = wu then 1 else 0) = s.pending.count a)
     ∨ (behav wu (s.failObs.count wu) = .err ∧
        s'.successes = s.successes ∧ s'.failObs = s.failObs ++ [wu] ∧
        s'.spawns = s.spawns ++ [(wu, s.clock + c.dt)] ∧ s'.clock = s.clock + c.dt ∧
        ∀ a, s'.pending.count a = s.pending.count a)) := by
  obtain ⟨p0, ps, hps⟩ := List.exists_cons_of_ne_nil hp
  rw [drainStep_eq_aux behav s c p0 ps hps] at h
  have hi : c.pick % (p0 :: ps).length < (p0 :: ps).length :=
    Nat.mod_lt _ (Nat.succ_pos _)
  have hmem : pickedWU c p0 ps ∈ s.pending := by
    rw [hps]
    unfold pickedWU
    exact List.get_mem _ _ _
  refine ⟨pickedWU c p0 ps, hmem, ?_⟩
  have hget : pickedWU c p0 ps =
      (p0 :: ps).get ⟨c.pick % (p0 :: ps).length, hi⟩ := rfl
  rcases hb : behav (pickedWU c p0 ps) (s.failObs.count (pickedWU c p0 ps)) with _ | _ | _
  · left
    rw [drainStepAux, hb] at h
    cases h
    dsimp only
    refine ⟨rfl, rfl, rfl, rfl, fun a => ?_⟩
    have hera := count_eraseIdx_add (p0 :: ps) (c.pick % (p0 :: ps).length) hi a
    rw [← hget] at hera
    rw [hps]
    omega
  · right
    rw [drainStepAux, hb] at h
    cases h
    dsimp only
    refine ⟨rfl, rfl, rfl, rfl, rfl, fun a => ?_⟩
    have hera := count_eraseIdx_add (p0 :: ps) (c.pick % (p0 :: ps).length) hi a
    rw [← hget] at hera
    rw [hps, count_append_single]
    omega
  · rw [drainStepAux, hb] at h
    cases h

lemma drainStep_panic_spec (behav : WorkUnit → Nat → TaskOutcome) (s : OrchState)
    (c : Compl) (s' : OrchState) (h : drainStep behav s c = .panic s') :
    (∀ a, s'.pending.count a ≤ s.pending.count a) ∧ s'.successes = s.successes ∧
    ∃ wu n, behav wu n = .panicked := by
  rcases hps : s.pending with _ | ⟨p0, ps⟩
  · rw [drainStep, hps] at h; cases h
  · rw [drainStep_eq_aux behav s c p0 ps hps] at h
    have hi : c.pick % (p0 :: ps).length < (p0 :: ps).length :=
      Nat.mod_lt _ (Nat.succ_pos _)
    rcases hb : behav (pickedWU c p0 ps) (s.failObs.count (pickedWU c p0 ps))
      with _ | _ | _
    · rw [drainStepAux, hb] at h; cases h
    · rw [drainStepAux, hb] at h; cases h
    · rw [drainStepAux, hb] at h
      cases h
      dsimp only
      refine ⟨fun a => ?_, rfl, _, _, hb⟩
      have hera := count_eraseIdx_add (p0 :: ps) (c.pick % (p0 :: ps).length) hi a
      omega

lemma drainPhase_inv (behav : WorkUnit → Nat → TaskOutcome) (P : OrchState → Prop)
    (hstep : ∀ s c s', s.pending ≠ [] → drainStep behav s c = .cont s' → P s → P s') :
    ∀ (cs : List Compl) (s s' : OrchState),
      (drainPhase behav s cs = .exited s' ∨ drainPhase behav s cs = .running s') →
      P s → P s' := by
  intro cs
  induction cs with
  | nil =>
    intro s s' h hP
    by_cases hp : s.pending = []
    · rcases h with h | h
      · simp only [drainPhase, if_pos hp] at h
        cases h
        exact hP
      · simp [drainPhase, hp] at h
    · rcases h with h | h
      · simp [drainPhase, hp] at h
      · simp only [drainPhase, if_neg hp] at h
        cases h
        exact hP
  | cons c cs ih =>
    intro s s' h hP
    by_cases hp : s.pending = []
    · rcases h with h | h
      · simp only [drainPhase, if_pos hp] at h
        cases h
        exact hP
      · simp [drainPhase, hp] at h
    · rcases hd : drainStep behav s c with s1 | s1
      · simp only [drainPhase, if_neg hp, hd] at h
        exact ih s1 s' h (hstep s c s1 hp hd hP)
      · rcases h with h | h <;> simp [drainPhase, hp, hd] at h

lemma drainPhase_inv_all (behav : WorkUnit → Nat → TaskOutcome) (P : OrchState → Prop)
    (hcont : ∀ s c s', s.pending ≠ [] → drainStep behav s c = .cont s' → P s → P s')
    (hpanic : ∀ s c s', s.pending ≠ [] → drainStep behav s c = .panic s' → P s → P s') :
    ∀ (cs : List Compl) (s : OrchState), P s → P (drainPhase behav s cs).state := by
  intro cs
  induction cs with
  | nil =>
    intro s hP
    by_cases hp : s.pending = [] <;> simp [drainPhase, hp, DrainResult.state, hP]
  | cons c cs ih =>
    intro s hP
    by_cases hp : s.pending = []
    · simp [drainPhase, hp, DrainResult.state, hP]
    · rcases hd : drainStep behav s c with s1 | s1
      · have := ih s1 (hcont s c s1 hp hd hP)
        simpa [drainPhase, hp, hd] using this
      · have := hpanic s c s1 hp hd hP
        simpa [drainPhase, hp, hd, DrainResult.state] using this

lemma drainPhase_exited_pending (behav : WorkUnit → Nat → TaskOutcome) :
    ∀ (cs : List Compl) (s s' : OrchState),
      drainPhase behav s cs = .exited s' → s'.pending = [] := by
  intro cs
  induction cs with
  | nil =>
    intro s s' h
    by_cases hp : s.pending = []
    · simp only [drainPhase, if_pos hp] at h
      cases h
      exact hp
    · simp [drainPhase, hp] at h
  | cons c cs ih =>
    intro s s' h
    by_cases hp : s.pending = []
    · simp only [drainPhase, if_pos hp] at h
      cases h
      exact hp
    · rcases hd : drainStep behav s c with s1 | s1
      · simp only [drainPhase, if_neg hp, hd] at h
        exact ih s1 s' h
      · simp [drainPhase, hp, hd] at h

lemma drainPhase_no_panic (behav : WorkUnit → Nat → TaskOutcome)
    (hnp : ∀ wu n, behav wu n ≠ .panicked) :
    ∀ (cs : List Compl) (s s' : OrchState), drainPhase behav s cs ≠ .panicked s' := by
  intro cs
  induction cs with
  | nil =>
    intro s s' h
    by_cases hp : s.pending = [] <;> simp [drainPhase, hp] at h
  | cons c cs ih =>
    intro s s' h
    by_cases hp : s.pending = []
    · simp [drainPhase, hp] at h
    · rcases hd : drainStep behav s c with s1 | s1
      · simp only [drainPhase, if_neg hp, hd] at h
        exact ih s1 s' h
      · obtain ⟨_, _, wu, n, hb⟩ := drainStep_panic_spec behav s c s1 hd
        exact hnp wu n hb

lemma drainPhase_cons_cont (behav : WorkUnit → Nat → TaskOutcome) (s s1 : OrchState)
    (c : Compl) (cs : List Compl) (hp : s.pending ≠ [])
    (hd : drainStep behav s c = .cont s1) :
    drainPhase behav s (c :: cs) = drainPhase behav s1 cs := by
  simp [drainPhase, hp, hd]

lemma drainStep_cont_conservation (behav : WorkUnit → Nat → TaskOutcome)
    (s : OrchState) (c : Compl) (s' : OrchState) (hp : s.pending ≠ [])
    (hd : drainStep behav s c = .cont s') (a : WorkUnit) :
    s'.pending.count a + s'.successes.count a =
      s.pending.count a + s.successes.count a := by
  obtain ⟨wu, -, hcase⟩ := drainStep_cont_spec behav s c s' hp hd
  rcases hcase with ⟨-, hsc, -, -, hcnt⟩ | ⟨-, hsc, -, -, -, hcnt⟩
  · have h1 := hcnt a
    have h2 : s'.successes.count a = s.successes.count a +
        (if a = wu then 1 else 0) := by rw [hsc, count_append_single]
    omega
  · have h1 := hcnt a
    rw [hsc]
    omega

lemma exit_success_counts (wallets recipients : List Nat) (D : Nat)
    (pool : List Endpoint) (behav : WorkUnit → Nat → TaskOutcome) (cs : List Compl)
    (s0 sF : OrchState) (hnd : (workUnits wallets recipients).Nodup)
    (hfill : fillPhase D pool (workUnits wallets recipients) initState = .ok s0)
    (hexit : drainPhase behav s0 cs = .exited sF) :
    sF.pending = [] ∧
    (∀ wu ∈ workUnits wallets recipients, sF.successes.count wu = 1) ∧
    (∀ wu ∈ sF.successes, wu ∈ workUnits wallets recipients) := by
  obtain ⟨hpend, hsuc, -, -, -⟩ := fillPhase_ok_fields D pool _ _ _ hfill
  simp only [initState, List.nil_append] at hpend hsuc
  have hcons : ∀ a, sF.pending.count a + sF.successes.count a =
      s0.pending.count a + s0.successes.count a := by
    refine drainPhase_inv behav
      (fun s => ∀ a, s.pending.count a + s.successes.count a =
        s0.pending.count a + s0.successes.count a)
      ?_ cs s0 sF (Or.inl hexit) (fun a => rfl)
    intro s c s' hp hd hPs a
    rw [drainStep_cont_conservation behav s c s' hp hd a]
    exact hPs a
  have hpendF : sF.pending = [] := drainPhase_exited_pending behav cs s0 sF hexit
  refine ⟨hpendF, ?_, ?_⟩
  · intro wu hwu
    have h1 := hcons wu
    rw [hpendF, hpend, hsuc] at h1
    have h2 : (workUnits wallets recipients).count wu = 1 :=
      List.count_eq_one_of_mem hnd hwu
    simpa [h2] using h1
  · intro wu hwu
    have h1 := hcons wu
    rw [hpendF, hpend, hsuc] at h1
    have h2 : 0 < sF.successes.count wu := List.count_pos_iff.mpr hwu
    have h3 : 0 < (workUnits wallets recipients).count wu := by simp at h1; omega
    exact List.count_pos_iff.mp h3

/-! ## Claim theorems -/

/-- C1: for every input batch (zipped into distinct work units) and every
completion schedule, when the drain loop of `claim_for_all` ends (its
`join_next` returned `None`), the registry is empty, every work unit has been
recorded as a success exactly once, and nothing but the input work units was
ever recorded as a success: the loop ends only when no task is outstanding. -/
theorem drain_exit_records_every_success
    (wallets recipients : List Nat) (D : Nat) (pool : List Endpoint)
    (behav : WorkUnit → Nat → TaskOutcome) (cs : List Compl) (s0 sF : OrchState)
    (hnd : (workUnits wallets recipients).Nodup)
    (hfill : fillPhase D pool (workUnits wallets recipients) initState = .ok s0)
    (hexit : drainPhase behav s0 cs = .exited sF) :
    sF.pending = [] ∧
    (∀ wu ∈ workUnits wallets recipients, sF.successes.count wu = 1) ∧
    (∀ wu ∈ sF.successes, wu ∈ workUnits wallets recipients) :=
  exit_success_counts wallets recipients D pool behav cs s0 sF hnd hfill hexit

/-- Witness for C1 at a concrete batch of two work units where the first
fails once and then both succeed. -/
theorem drain_exit_records_every_success_witness :
    ((workUnits [1, 2] [10, 20]).Nodup ∧
     fillPhase 1 ["u"] (workUnits [1, 2] [10, 20]) initState =
       .ok ⟨[⟨1, 10⟩, ⟨2, 20⟩], [], [], [(⟨1, 10⟩, 1), (⟨2, 20⟩, 2)], 2⟩ ∧
     drainPhase (fun wu n => if wu.wallet = 1 ∧ n = 0 then .err else .ok)
       ⟨[⟨1, 10⟩, ⟨2, 20⟩], [], [], [(⟨1, 10⟩, 1), (⟨2, 20⟩, 2)], 2⟩
       [⟨0, 0⟩, ⟨0, 0⟩, ⟨0, 0⟩] =
       .exited ⟨[], [⟨2, 20⟩, ⟨1, 10⟩], [⟨1, 10⟩],
         [(⟨1, 10⟩, 1), (⟨2, 20⟩, 2), (⟨1, 10⟩, 2)], 2⟩) ∧
    (OrchState.pending ⟨[], [⟨2, 20⟩, ⟨1, 10⟩], [⟨1, 10⟩],
        [(⟨1, 10⟩, 1), (⟨2, 20⟩, 2), (⟨1, 10⟩, 2)], 2⟩ = [] ∧
     (∀ wu ∈ workUnits [1, 2] [10, 20],
        (OrchState.successes ⟨[], [⟨2, 20⟩, ⟨1, 10⟩], [⟨1, 10⟩],
          [(⟨1, 10⟩, 1), (⟨2, 20⟩, 2), (⟨1, 10⟩, 2)], 2⟩).count wu = 1) ∧
     (∀ wu ∈ OrchState.successes ⟨[], [⟨2, 20⟩, ⟨1, 10⟩], [⟨1, 10⟩],
          [(⟨1, 10⟩, 1), (⟨2, 20⟩, 2), (⟨1, 10⟩, 2)], 2⟩,
        wu ∈ workUnits [1, 2] [10, 20])) :=
  ⟨⟨by decide, by rfl, by rfl⟩,
   drain_exit_records_every_success [1, 2] [10, 20] 1 ["u"]
     (fun wu n => if wu.wallet = 1 ∧ n = 0 then .err else .ok)
     [⟨0, 0⟩, ⟨0, 0⟩, ⟨0, 0⟩]
     ⟨[⟨1, 10⟩, ⟨2, 20⟩], [], [], [(⟨1, 10⟩, 1), (⟨2, 20⟩, 2)], 2⟩
     ⟨[], [⟨2, 20⟩, ⟨1, 10⟩], [⟨1, 10⟩],
       [(⟨1, 10⟩, 1), (⟨2, 20⟩, 2), (⟨1, 10⟩, 2)], 2⟩
     (by decide) (by rfl) (by rfl)⟩

/-- C2: at every instant of a drain run on a batch of distinct work units
(i.e. after any schedule prefix, whatever the outcome so far), no work unit
has two live tasks in the registry, and the registry never holds a task for a
work unit already recorded as a success. -/
theorem registry_no_duplicate_tasks
    (wallets recipients : List Nat) (D : Nat) (pool : List Endpoint)
    (behav : WorkUnit → Nat → TaskOutcome) (cs : List Compl) (s0 : OrchState)
    (hnd : (workUnits wallets recipients).Nodup)
    (hfill : fillPhase D pool (workUnits wallets recipients) initState = .ok s0) :
    (drainPhase behav s0 cs).state.pending.Nodup ∧
    ∀ wu ∈ (drainPhase behav s0 cs).state.successes,
      wu ∉ (drainPhase behav s0 cs).state.pending := by
  obtain ⟨hpend, hsuc, -, -, -⟩ := fillPhase_ok_fields D pool _ _ _ hfill
  simp only [initState, List.nil_append] at hpend hsuc
  have hP : ∀ a, (drainPhase behav s0 cs).state.pending.count a +
      (drainPhase behav s0 cs).state.successes.count a ≤ 1 := by
    refine drainPhase_inv_all behav
      (fun s => ∀ a, s.pending.count a + s.successes.count a ≤ 1) ?_ ?_ cs s0 ?_
    · intro s c s' hp hd hPs a
      rw [drainStep_cont_conservation behav s c s' hp hd a]
      exact hPs a
    · intro s c s' hp hd hPs a
      obtain ⟨hle, hsc, -⟩ := drainStep_panic_spec behav s c s' hd
      have := hPs a
      have := hle a
      rw [hsc]
      omega
    · intro a
      rw [hpend, hsuc]
      have := List.nodup_iff_count_le_one.mp hnd a
      simpa using this
  constructor
  · exact List.nodup_iff_count_le_one.mpr fun a => by have := hP a; omega
  · intro wu hwu
    have h1 := hP wu
    have h2 : 0 < (drainPhase behav s0 cs).state.successes.count wu :=
      List.count_pos_iff.mpr hwu
    have h3 : (drainPhase behav s0 cs).state.pending.count wu = 0 := by omega
    exact List.count_eq_zero.mp h3

/-- Witness for C2: after one completed step (a failure of the first work
unit), the registry still holds one task per work unit and none for a
completed one. -/
theorem registry_no_duplicate_tasks_witness :
    ((workUnits [1, 2] [10, 20]).Nodup ∧
     fillPhase 1 ["u"] (workUnits [1, 2] [10, 20]) initState =
       .ok ⟨[⟨1, 10⟩, ⟨2, 20⟩], [], [], [(⟨1, 10⟩, 1), (⟨2, 20⟩, 2)], 2⟩) ∧
    ((drainPhase (fun wu n => if wu.wallet = 1 ∧ n = 0 then .err else .ok)
        ⟨[⟨1, 10⟩, ⟨2, 20⟩], [], [], [(⟨1, 10⟩, 1), (⟨2, 20⟩, 2)], 2⟩
        [⟨0, 0⟩]).state.pending.Nodup ∧
     ∀ wu ∈ (drainPhase (fun wu n => if wu.wallet = 1 ∧ n = 0 then .err else .ok)
        ⟨[⟨1, 10⟩, ⟨2, 20⟩], [], [], [(⟨1, 10⟩, 1), (⟨2, 20⟩, 2)], 2⟩
        [⟨0, 0⟩]).state.successes,
       wu ∉ (drainPhase (fun wu n => if wu.wallet = 1 ∧ n = 0 then .err else .ok)
        ⟨[⟨1, 10⟩, ⟨2, 20⟩], [], [], [(⟨1, 10⟩, 1), (⟨2, 20⟩, 2)], 2⟩
        [⟨0, 0⟩]).state.pending) :=
  ⟨⟨by decide, by rfl⟩,
   registry_no_duplicate_tasks [1, 2] [10, 20] 1 ["u"]
     (fun wu n => if wu.wallet = 1 ∧ n = 0 then .err else .ok) [⟨0, 0⟩]
     ⟨[⟨1, 10⟩, ⟨2, 20⟩], [], [], [(⟨1, 10⟩, 1), (⟨2, 20⟩, 2)], 2⟩
     (by decide) (by rfl)⟩

/-- C3 counterexample: an abnormal termination (panic) inside the workflow
step of the only task is propagated out of the drain loop by `res.unwrap()`:
the run of `claim_for_all` ends in a panic of the orchestrator itself, with no
success recorded — refuting, as stated, that any error or abnormal termination
inside the workflow step never terminates the registry and is never propagated
out of the loop.  (In the source, `extract_proof_and_amount` can panic on a
malformed proof entry, inside the spawned task; `res.unwrap()` at
src/claimer.rs 253 then panics the whole loop.) -/
theorem task_panic_aborts_orchestrator :
    claim_for_all (fun u => some u) 1 ["u"] (fun _ _ => .panicked) [1] [5]
      [⟨0, 0⟩] = .ok (.panicked ⟨[], [], [], [(⟨1, 5⟩, 1)], 1⟩) ∧
    OrchState.successes ⟨[], [], [], [(⟨1, 5⟩, 1)], 1⟩ = [] :=
  ⟨rfl, rfl⟩

/-- C3 (amended): a task failure that is returned as an error value (the
workflow step's `Result`) is fully contained: the drain loop never panics for
a batch whose attempts only succeed or fail with errors, a failure step leaves
the multiset of registry work units plus recorded successes unchanged (no
other task is terminated), and the loop still ends only on full success of
every work unit.  Only an abnormal termination (panic) of a task escapes, via
`res.unwrap()`. -/
theorem task_error_never_escapes
    (wallets recipients : List Nat) (D : Nat) (pool : List Endpoint)
    (behav : WorkUnit → Nat → TaskOutcome) (cs : List Compl) (s0 : OrchState)
    (hnd : (workUnits wallets recipients).Nodup)
    (hfill : fillPhase D pool (workUnits wallets recipients) initState = .ok s0)
    (hnp : ∀ wu n, behav wu n ≠ .panicked) :
    (∀ sP, drainPhase behav s0 cs ≠ .panicked sP) ∧
    (∀ s c s', s.pending ≠ [] → drainStep behav s c = .cont s' →
      ∀ a, s'.pending.count a + s'.successes.count a =
        s.pending.count a + s.successes.count a) ∧
    (∀ sF, drainPhase behav s0 cs = .exited sF →
      ∀ wu ∈ workUnits wallets recipients, sF.successes.count wu = 1) := by
  refine ⟨fun sP => drainPhase_no_panic behav hnp cs s0 sP,
    fun s c s' hp hd a => drainStep_cont_conservation behav s c s' hp hd a,
    fun sF hexit wu hwu => ?_⟩
  exact (exit_success_counts wallets recipients D pool behav cs s0 sF hnd
    hfill hexit).2.1 wu hwu

/-- Witness for C3 (amended) at a concrete two-unit batch whose attempts
fail once and then succeed. -/
theorem task_error_never_escapes_witness :
    ((workUnits [1, 2] [10, 20]).Nodup ∧
     fillPhase 1 ["u"] (workUnits [1, 2] [10, 20]) initState =
       .ok ⟨[⟨1, 10⟩, ⟨2, 20⟩], [], [], [(⟨1, 10⟩, 1), (⟨2, 20⟩, 2)], 2⟩ ∧
     (∀ wu n, (fun (_ : WorkUnit) (n : Nat) =>
        if n = 0 then TaskOutcome.err else TaskOutcome.ok) wu n ≠ .panicked)) ∧
    ((∀ sP, drainPhase (fun _ n => if n = 0 then TaskOutcome.err else .ok)
        ⟨[⟨1, 10⟩, ⟨2, 20⟩], [], [], [(⟨1, 10⟩, 1), (⟨2, 20⟩, 2)], 2⟩
        [⟨0, 0⟩, ⟨0, 0⟩, ⟨0, 0⟩, ⟨0, 0⟩] ≠ .panicked sP) ∧
     (∀ s c s', s.pending ≠ [] →
       drainStep (fun _ n => if n = 0 then TaskOutcome.err else .ok) s c = .cont s' →
       ∀ a, s'.pending.count a + s'.successes.count a =
         s.pending.count a + s.successes.count a) ∧
     (∀ sF, drainPhase (fun _ n => if n = 0 then TaskOutcome.err else .ok)
        ⟨[⟨1, 10⟩, ⟨2, 20⟩], [], [], [(⟨1, 10⟩, 1), (⟨2, 20⟩, 2)], 2⟩
        [⟨0, 0⟩, ⟨0, 0⟩, ⟨0, 0⟩, ⟨0, 0⟩] = .exited sF →
       ∀ wu ∈ workUnits [1, 2] [10, 20], sF.successes.count wu = 1)) :=
  ⟨⟨by decide, by rfl, by intro wu n; rcases n with _ | n <;> simp⟩,
   task_error_never_escapes [1, 2] [10, 20] 1 ["u"]
     (fun _ n => if n = 0 then TaskOutcome.err else .ok)
     [⟨0, 0⟩, ⟨0, 0⟩, ⟨0, 0⟩, ⟨0, 0⟩]
     ⟨[⟨1, 10⟩, ⟨2, 20⟩], [], [], [(⟨1, 10⟩, 1), (⟨2, 20⟩, 2)], 2⟩
     (by decide) (by rfl)
     (by intro wu n; rcases n with _ | n <;> simp)⟩

lemma pickedWU_zero (dt : Nat) (p0 : WorkUnit) (ps : List WorkUnit) :
    pickedWU ⟨0, dt⟩ p0 ps = p0 := by
  simp [pickedWU]

lemma drainStep_zero_ok (behav : WorkUnit → Nat → TaskOutcome) (s : OrchState)
    (p0 : WorkUnit) (ps : List WorkUnit) (hp : s.pending = p0 :: ps)
    (hb : behav p0 (s.failObs.count p0) = .ok) :
    drainStep behav s ⟨0, 0⟩ = .cont { s with
      pending := ps
      successes := s.successes ++ [p0]
      clock := s.clock } := by
  rw [drainStep_eq_aux behav s ⟨0, 0⟩ p0 ps hp]
  unfold drainStepAux
  rw [pickedWU_zero, hb]
  simp

lemma drainStep_zero_err (behav : WorkUnit → Nat → TaskOutcome) (s : OrchState)
    (p0 : WorkUnit) (ps : List WorkUnit) (hp : s.pending = p0 :: ps)
    (hb : behav p0 (s.failObs.count p0) = .err) :
    drainStep behav s ⟨0, 0⟩ = .cont { s with
      pending := ps ++ [p0]
      failObs := s.failObs ++ [p0]
      spawns := s.spawns ++ [(p0, s.clock)]
      clock := s.clock } := by
  rw [drainStep_eq_aux behav s ⟨0, 0⟩ p0 ps hp]
  unfold drainStepAux
  rw [pickedWU_zero, hb]
  simp

/-- Per-work-unit drain invariant: the failure count never exceeds the
attempt index of the first success, each work unit has at most one live task
plus recorded success in total, and a recorded success happened exactly at
attempt K. -/
lemma drainStep_wu_invariant (behav : WorkUnit → Nat → TaskOutcome)
    (wu : WorkUnit) (K : Nat) (hKf : ∀ n < K, behav wu n = .err)
    (hKs : behav wu K = .ok) (s : OrchState) (c : Compl) (s' : OrchState)
    (hp : s.pending ≠ []) (hd : drainStep behav s c = .cont s')
    (hinv : s.failObs.count wu ≤ K ∧
      s.pending.count wu + s.successes.count wu ≤ 1 ∧
      (wu ∈ s.successes → s.failObs.count wu = K)) :
    s'.failObs.count wu ≤ K ∧
    s'.pending.count wu + s'.successes.count wu ≤ 1 ∧
    (wu ∈ s'.successes → s'.failObs.count wu = K) := by
  obtain ⟨hf, hcard, hdone⟩ := hinv
  obtain ⟨v, hvmem, hcase⟩ := drainStep_cont_spec behav s c s' hp hd
  have hcons := drainStep_cont_conservation behav s c s' hp hd wu
  rcases eq_or_ne v wu with rfl | hvne
  · -- the completing task is this work unit's task
    have hvp : 0 < s.pending.count v := List.count_pos_iff.mpr hvmem
    have hnots : v ∉ s.successes := by
      intro hmem
      have := List.count_pos_iff.mpr hmem
      omega
    rcases hcase with ⟨hb, hsc, hfo, -, -⟩ | ⟨hb, hsc, hfo, -, -, -⟩
    · -- success observed: the attempt index is K
      have hfK : s.failObs.count v = K := by
        rcases Nat.lt_or_ge (s.failObs.count v) K with hlt | hge
        · rw [hKf _ hlt] at hb; cases hb
        · omega
      refine ⟨by rw [hfo]; omega, by omega, fun _ => by rw [hfo]; omega⟩
    · -- failure observed: the attempt index cannot be K
      have hflt : s.failObs.count v < K := by
        rcases Nat.lt_or_ge (s.failObs.count v) K with hlt | hge
        · exact hlt
        · have : s.failObs.count v = K := by omega
          rw [this, hKs] at hb; cases hb
      have hfo' : s'.failObs.count v = s.failObs.count v + 1 := by
        rw [hfo, count_append_single]; simp
      refine ⟨by omega, by omega, fun hmem => ?_⟩
      rw [hsc] at hmem
      exact absurd hmem hnots
  · -- another work unit's task completed: nothing about wu changes
    rcases hcase with ⟨hb, hsc, hfo, -, -⟩ | ⟨hb, hsc, hfo, -, -, -⟩
    · have hfo' : s'.failObs.count wu = s.failObs.count wu := by rw [hfo]
      have hsc' : wu ∈ s'.successes → wu ∈ s.successes := by
        rw [hsc]
        intro hmem
        rcases List.mem_append.mp hmem with h | h
        · exact h
        · simp at h; exact absurd h.symm hvne
      exact ⟨by omega, by omega, fun hmem => by rw [hfo']; exact hdone (hsc' hmem)⟩
    · have hfo' : s'.failObs.count wu = s.failObs.count wu := by
        rw [hfo, count_append_single]
        simp [hvne.symm]
      have hsc' : wu ∈ s'.successes → wu ∈ s.successes := by rw [hsc]; exact id
      exact ⟨by omega, by omega, fun hmem => by rw [hfo']; exact hdone (hsc' hmem)⟩

/-- Spawn accounting: every spawn after the fill phase is a respawn caused by
exactly one observed failure. -/
lemma drain_spawn_accounting (behav : WorkUnit → Nat → TaskOutcome)
    (s0 : OrchState) (cs : List Compl) (sF : OrchState)
    (hres : drainPhase behav s0 cs = .exited sF ∨
      drainPhase behav s0 cs = .running sF) :
    ∀ a, (sF.spawns.map Prod.fst).count a + s0.failObs.count a =
      (s0.spawns.map Prod.fst).count a + sF.failObs.count a := by
  refine drainPhase_inv behav
    (fun s => ∀ a, (s.spawns.map Prod.fst).count a + s0.failObs.count a =
      (s0.spawns.map Prod.fst).count a + s.failObs.count a)
    ?_ cs s0 sF hres (fun a => rfl)
  intro s c s' hp hd hPs a
  obtain ⟨v, -, hcase⟩ := drainStep_cont_spec behav s c s' hp hd
  rcases hcase with ⟨-, -, hfo, hsp, -⟩ | ⟨-, -, hfo, hsp, -, -⟩
  · rw [hfo, hsp]; exact hPs a
  · have h1 : (s'.spawns.map Prod.fst).count a =
        (s.spawns.map Prod.fst).count a + (if a = v then 1 else 0) := by
      rw [hsp]
      simp only [List.map_append, List.map_cons, List.map_nil]
      exact count_append_single _ _ _
    have h2 : s'.failObs.count a = s.failObs.count a + (if a = v then 1 else 0) := by
      rw [hfo, count_append_single]
    have := hPs a
    omega

/-- Remaining work measure for the termination argument: one unit per pending
task plus one per failure its work unit has still to exhaust. -/
def budget (K : WorkUnit → Nat) (s : OrchState) : Nat :=
  (s.pending.map fun v => K v + 1 - s.failObs.count v).sum

/-- Under a behaviour where every still-pending work unit fails a finite
number of times and then succeeds, some completion schedule drains the
registry: the drain loop can terminate. -/
lemma drain_exit_exists (behav : WorkUnit → Nat → TaskOutcome)
    (K : WorkUnit → Nat) :
    ∀ (m : Nat) (s : OrchState), s.pending.Nodup →
      (∀ v ∈ s.pending, s.failObs.count v ≤ K v ∧
        (∀ n < K v, behav v n = .err) ∧ behav v (K v) = .ok) →
      budget K s ≤ m →
      ∃ cs sE, drainPhase behav s cs = .exited sE := by
  intro m
  induction m with
  | zero =>
    intro s hnd hinv hb
    rcases hp : s.pending with _ | ⟨p0, ps⟩
    · exact ⟨[], s, by simp [drainPhase, hp]⟩
    · exfalso
      have h0 := (hinv p0 (by rw [hp]; exact List.mem_cons_self p0 ps)).1
      rw [budget, hp] at hb
      simp only [List.map_cons, List.sum_cons] at hb
      omega
  | succ m ih =>
    intro s hnd hinv hb
    rcases hp : s.pending with _ | ⟨p0, ps⟩
    · exact ⟨[], s, by simp [drainPhase, hp]⟩
    · have hmem0 : p0 ∈ s.pending := by rw [hp]; exact List.mem_cons_self p0 ps
      obtain ⟨hf0, hKf0, hKs0⟩ := hinv p0 hmem0
      have hndtl : ps.Nodup ∧ p0 ∉ ps := by
        rw [hp] at hnd
        exact ⟨hnd.of_cons, (List.nodup_cons.mp hnd).1⟩
      rcases Nat.lt_or_ge (s.failObs.count p0) (K p0) with hlt | hge
      · -- this attempt fails; the work unit is respawned at the tail
        have hb0 : behav p0 (s.failObs.count p0) = .err := hKf0 _ hlt
        have hstep0 := drainStep_zero_err behav s p0 ps hp hb0
        obtain ⟨s', hs', hstep⟩ :
            ∃ s', s' = ({ s with
                pending := ps ++ [p0]
                failObs := s.failObs ++ [p0]
                spawns := s.spawns ++ [(p0, s.clock)]
                clock := s.clock } : OrchState) ∧
              drainStep behav s ⟨0, 0⟩ = .cont s' := ⟨_, rfl, hstep0⟩
        have hsp : s'.pending = ps ++ [p0] := by rw [hs']
        have hsfo : s'.failObs = s.failObs ++ [p0] := by rw [hs']
        have hcount : ∀ v ∈ ps, s'.failObs.count v = s.failObs.count v := by
          intro v hv
          have hne : v ≠ p0 := fun h => hndtl.2 (h ▸ hv)
          rw [hsfo, count_append_single]
          simp [hne]
        have hcount0 : s'.failObs.count p0 = s.failObs.count p0 + 1 := by
          rw [hsfo, count_append_single]
          simp
        have hnd' : s'.pending.Nodup := by
          rw [hsp]
          exact ((List.perm_append_singleton p0 ps).nodup_iff).mpr
            (by rw [← hp]; exact hnd)
        have hinv' : ∀ v ∈ s'.pending, s'.failObs.count v ≤ K v ∧
            (∀ n < K v, behav v n = .err) ∧ behav v (K v) = .ok := by
          intro v hv
          rw [hsp] at hv
          simp only [List.mem_append, List.mem_singleton] at hv
          rcases hv with hv | rfl
          · rw [hcount v hv]
            exact hinv v (by rw [hp]; exact List.mem_cons_of_mem _ hv)
          · rw [hcount0]
            exact ⟨by omega, hKf0, hKs0⟩
        have hbud : budget K s' ≤ m := by
          rw [budget, hp] at hb
          simp only [List.map_cons, List.sum_cons] at hb
          rw [budget, hsp]
          simp only [List.map_append, List.sum_append, List.map_cons,
            List.map_nil, List.sum_cons, List.sum_nil]
          have hmap : ps.map (fun v => K v + 1 - s'.failObs.count v) =
              ps.map (fun v => K v + 1 - s.failObs.count v) :=
            List.map_congr_left fun v hv => by rw [hcount v hv]
          rw [hmap, hcount0]
          omega
        obtain ⟨cs, sE, hcs⟩ := ih s' hnd' hinv' hbud
        refine ⟨⟨0, 0⟩ :: cs, sE, ?_⟩
        rw [drainPhase_cons_cont behav s s' ⟨0, 0⟩ cs (by rw [hp]; simp) hstep]
        exact hcs
      · -- the failure budget is exhausted: this attempt succeeds
        have hfK : s.failObs.count p0 = K p0 := by omega
        have hb0 : behav p0 (s.failObs.count p0) = .ok := by rw [hfK]; exact hKs0
        have hstep0 := drainStep_zero_ok behav s p0 ps hp hb0
        obtain ⟨s', hs', hstep⟩ :
            ∃ s', s' = ({ s with
                pending := ps
                successes := s.successes ++ [p0]
                clock := s.clock } : OrchState) ∧
              drainStep behav s ⟨0, 0⟩ = .cont s' := ⟨_, rfl, hstep0⟩
        have hsp : s'.pending = ps := by rw [hs']
        have hsfo : s'.failObs = s.failObs := by rw [hs']
        have hnd' : s'.pending.Nodup := by rw [hsp]; exact hndtl.1
        have hinv' : ∀ v ∈ s'.pending, s'.failObs.count v ≤ K v ∧
            (∀ n < K v, behav v n = .err) ∧ behav v (K v) = .ok := by
          intro v hv
          rw [hsp] at hv
          rw [hsfo]
          exact hinv v (by rw [hp]; exact List.mem_cons_of_mem _ hv)
        have hbud : budget K s' ≤ m := by
          rw [budget, hp] at hb
          simp only [List.map_cons, List.sum_cons] at hb
          rw [budget, hsp, hsfo]
          omega
        obtain ⟨cs, sE, hcs⟩ := ih s' hnd' hinv' hbud
        refine ⟨⟨0, 0⟩ :: cs, sE, ?_⟩
        rw [drainPhase_cons_cont behav s s' ⟨0, 0⟩ cs (by rw [hp]; simp) hstep]
        exact hcs

/-- C4: resubmission is unconditional and unbounded.  For a behaviour where a
work unit's workflow step fails exactly K times and then succeeds (no retry
ceiling is ever consulted), any completed drain run has spawned exactly K + 1
tasks for that work unit — the one admission plus one replacement per failure,
each spawned immediately upon observing the failure — and when every work unit
eventually succeeds this way, the loop can still drain to termination. -/
theorem resubmission_unbounded_spawn_count
    (wallets recipients : List Nat) (D : Nat) (pool : List Endpoint)
    (behav : WorkUnit → Nat → TaskOutcome) (cs : List Compl) (s0 sF : OrchState)
    (K : WorkUnit → Nat)
    (hnd : (workUnits wallets recipients).Nodup)
    (hfill : fillPhase D pool (workUnits wallets recipients) initState = .ok s0)
    (hbehav : ∀ wu ∈ workUnits wallets recipients,
      (∀ n < K wu, behav wu n = .err) ∧ behav wu (K wu) = .ok) :
    (drainPhase behav s0 cs = .exited sF →
      ∀ wu ∈ workUnits wallets recipients,
        (sF.spawns.map Prod.fst).count wu = K wu + 1) ∧
    (∃ cs' sE, drainPhase behav s0 cs' = .exited sE) := by
  obtain ⟨hpend, hsuc, hfo, hsp, -⟩ := fillPhase_ok_fields D pool _ _ _ hfill
  simp only [initState, List.nil_append] at hpend hsuc hfo hsp
  constructor
  · intro hexit wu hwu
    obtain ⟨hKf, hKs⟩ := hbehav wu hwu
    have hacct := drain_spawn_accounting behav s0 cs sF (Or.inl hexit) wu
    rw [hfo] at hacct
    have hs0cnt : (s0.spawns.map Prod.fst).count wu = 1 := by
      rw [hsp, admissions_map_fst]
      exact List.count_eq_one_of_mem hnd hwu
    have hinv0 : s0.failObs.count wu ≤ K wu ∧
        s0.pending.count wu + s0.successes.count wu ≤ 1 ∧
        (wu ∈ s0.successes → s0.failObs.count wu = K wu) := by
      rw [hfo, hpend, hsuc]
      refine ⟨by simp, ?_, by simp⟩
      have := List.nodup_iff_count_le_one.mp hnd wu
      simpa using this
    have hinvF := drainPhase_inv behav
      (fun s => s.failObs.count wu ≤ K wu ∧
        s.pending.count wu + s.successes.count wu ≤ 1 ∧
        (wu ∈ s.successes → s.failObs.count wu = K wu))
      (fun s c s' hp hd hP =>
        drainStep_wu_invariant behav wu (K wu) hKf hKs s c s' hp hd hP)
      cs s0 sF (Or.inl hexit) hinv0
    have hmemsuc : wu ∈ sF.successes := by
      have := (exit_success_counts wallets recipients D pool behav cs s0 sF hnd
        hfill hexit).2.1 wu hwu
      exact List.count_pos_iff.mp (by omega)
    have hK := hinvF.2.2 hmemsuc
    simp only [List.count_nil] at hacct
    omega
  · refine drain_exit_exists behav K (budget K s0) s0 ?_ ?_ le_rfl
    · rw [hpend]; exact hnd
    · intro v hv
      rw [hpend] at hv
      exact ⟨by rw [hfo]; simp, (hbehav v hv).1, (hbehav v hv).2⟩

/-- Witness for C4: one work unit failing exactly twice then succeeding,
spawning 3 tasks in total. -/
theorem resubmission_unbounded_spawn_count_witness :
    ((workUnits [1] [5]).Nodup ∧
     fillPhase 1 ["u"] (workUnits [1] [5]) initState =
       .ok ⟨[⟨1, 5⟩], [], [], [(⟨1, 5⟩, 1)], 1⟩ ∧
     (∀ wu ∈ workUnits [1] [5],
       (∀ n < 2, (fun (_ : WorkUnit) (n : Nat) =>
          if n < 2 then TaskOutcome.err else TaskOutcome.ok) wu n = .err) ∧
       (fun (_ : WorkUnit) (n : Nat) =>
          if n < 2 then TaskOutcome.err else TaskOutcome.ok) wu 2 = .ok) ∧
     drainPhase (fun _ n => if n < 2 then TaskOutcome.err else .ok)
       ⟨[⟨1, 5⟩], [], [], [(⟨1, 5⟩, 1)], 1⟩ [⟨0, 0⟩, ⟨0, 0⟩, ⟨0, 0⟩] =
       .exited ⟨[], [⟨1, 5⟩], [⟨1, 5⟩, ⟨1, 5⟩],
         [(⟨1, 5⟩, 1), (⟨1, 5⟩, 1), (⟨1, 5⟩, 1)], 1⟩) ∧
    (List.count ⟨1, 5⟩ ((OrchState.spawns ⟨[], [⟨1, 5⟩], [⟨1, 5⟩, ⟨1, 5⟩],
        [(⟨1, 5⟩, 1), (⟨1, 5⟩, 1), (⟨1, 5⟩, 1)], 1⟩).map Prod.fst) = 2 + 1) ∧
    (∃ cs' sE, drainPhase (fun _ n => if n < 2 then TaskOutcome.err else .ok)
       ⟨[⟨1, 5⟩], [], [], [(⟨1, 5⟩, 1)], 1⟩ cs' = .exited sE) :=
  ⟨⟨by decide, by rfl, by decide, by rfl⟩,
   (resubmission_unbounded_spawn_count [1] [5] 1 ["u"]
     (fun _ n => if n < 2 then TaskOutcome.err else .ok) [⟨0, 0⟩, ⟨0, 0⟩, ⟨0, 0⟩]
     ⟨[⟨1, 5⟩], [], [], [(⟨1, 5⟩, 1)], 1⟩
     ⟨[], [⟨1, 5⟩], [⟨1, 5⟩, ⟨1, 5⟩], [(⟨1, 5⟩, 1), (⟨1, 5⟩, 1), (⟨1, 5⟩, 1)], 1⟩
     (fun _ => 2) (by decide) (by rfl) (by decide)).1 (by rfl) ⟨1, 5⟩ (by decide),
   (resubmission_unbounded_spawn_count [1] [5] 1 ["u"]
     (fun _ n => if n < 2 then TaskOutcome.err else .ok) [⟨0, 0⟩, ⟨0, 0⟩, ⟨0, 0⟩]
     ⟨[⟨1, 5⟩], [], [], [(⟨1, 5⟩, 1)], 1⟩
     ⟨[], [⟨1, 5⟩], [⟨1, 5⟩, ⟨1, 5⟩], [(⟨1, 5⟩, 1), (⟨1, 5⟩, 1), (⟨1, 5⟩, 1)], 1⟩
     (fun _ => 2) (by decide) (by rfl) (by decide)).2⟩

/-- C5: the fill loop sleeps the configured delay before each admission, so
first admissions happen in input order at strictly increasing times spaced by
at least D (for a positive configured delay); and a replacement task spawned
by the drain loop is appended at the very clock instant the failure was
observed — resubmission bypasses the admission throttle entirely. -/
theorem admission_spacing_and_resubmission_bypass
    (wallets recipients : List Nat) (D : Nat) (pool : List Endpoint)
    (behav : WorkUnit → Nat → TaskOutcome) (s0 : OrchState) (hD : 0 < D)
    (hfill : fillPhase D pool (workUnits wallets recipients) initState = .ok s0) :
    s0.spawns.map Prod.fst = workUnits wallets recipients ∧
    List.Chain' (fun t t' => t < t' ∧ t + D ≤ t') (s0.spawns.map Prod.snd) ∧
    (∀ s c s', drainStep behav s c = .cont s' →
      ∀ e ∈ s'.spawns, e ∉ s.spawns →
        e.2 = s.clock + c.dt ∧ s'.clock = s.clock + c.dt) := by
  obtain ⟨-, -, -, hsp, -⟩ := fillPhase_ok_fields D pool _ _ _ hfill
  simp only [initState, List.nil_append] at hsp
  refine ⟨?_, ?_, ?_⟩
  · rw [hsp, admissions_map_fst]
  · rw [hsp]
    refine (admissions_chain D (workUnits wallets recipients) 0).imp ?_
    intro a b h
    subst h
    exact ⟨by omega, le_rfl⟩
  · intro s c s' hd e he hne
    by_cases hp : s.pending = []
    · simp only [drainStep, hp] at hd
      cases hd
      exact absurd he hne
    · obtain ⟨wu, -, hcase⟩ := drainStep_cont_spec behav s c s' hp hd
      rcases hcase with ⟨-, -, -, hspw, -⟩ | ⟨-, -, -, hspw, hck, -⟩
      · rw [hspw] at he
        exact absurd he hne
      · rw [hspw] at he
        rcases List.mem_append.mp he with h | h
        · exact absurd h hne
        · simp only [List.mem_singleton] at h
          subst h
          exact ⟨rfl, hck⟩

/-- Witness for C5 at a two-unit batch with delay 2: admissions at times 2
and 4. -/
theorem admission_spacing_and_resubmission_bypass_witness :
    (0 < 2 ∧
     fillPhase 2 ["u"] (workUnits [1, 2] [10, 20]) initState =
       .ok ⟨[⟨1, 10⟩, ⟨2, 20⟩], [], [], [(⟨1, 10⟩, 2), (⟨2, 20⟩, 4)], 4⟩) ∧
    ((OrchState.spawns ⟨[⟨1, 10⟩, ⟨2, 20⟩], [], [],
        [(⟨1, 10⟩, 2), (⟨2, 20⟩, 4)], 4⟩).map Prod.fst = workUnits [1, 2] [10, 20] ∧
     List.Chain' (fun t t' => t < t' ∧ t + 2 ≤ t')
       ((OrchState.spawns ⟨[⟨1, 10⟩, ⟨2, 20⟩], [], [],
         [(⟨1, 10⟩, 2), (⟨2, 20⟩, 4)], 4⟩).map Prod.snd) ∧
     (∀ s c s', drainStep (fun _ _ => TaskOutcome.ok) s c = .cont s' →
       ∀ e ∈ s'.spawns, e ∉ s.spawns →
         e.2 = s.clock + c.dt ∧ s'.clock = s.clock + c.dt)) :=
  ⟨⟨by decide, by rfl⟩,
   admission_spacing_and_resubmission_bypass [1, 2] [10, 20] 2 ["u"]
     (fun _ _ => TaskOutcome.ok)
     ⟨[⟨1, 10⟩, ⟨2, 20⟩], [], [], [(⟨1, 10⟩, 2), (⟨2, 20⟩, 4)], 4⟩
     (by decide) (by rfl)⟩

/-- C6 (code defect, evaluated at the failing input): with eligibility not yet
claimed, allocation 100, and a claim transaction that is mined but reverts
(receipt status false), `claim_and_transfer` still returns `Ok(())` — it
discards the boolean receipt status that `send_transaction` returns
(`claim(..).await?;` and `transfer(..).await?;` drop it), so it reports
success although a submitted transaction did not succeed. -/
theorem claim_and_transfer_ok_despite_reverted_claim :
    (claim_and_transfer
      (⟨.ok false, .ok 0, .ok ([], 100), .ok false, .ok true⟩ : ChainWorld)
      7 9).1 = .ok () ∧
    (Tx.claimTx 7 100 [], false) ∈
      (claim_and_transfer
        (⟨.ok false, .ok 0, .ok ([], 100), .ok false, .ok true⟩ : ChainWorld)
        7 9).2 := by
  refine ⟨rfl, ?_⟩
  simp [claim_and_transfer, computeAllocation]

/-- C7 counterexample: an invocation in which the eligibility check reports
the account has not yet claimed, but the proof fetch fails, submits no claim
transaction at all — refuting the unconditional "if" direction of the claim's
iff. -/
theorem eligible_but_no_claim_submitted :
    ChainWorld.hasClaimed
      (⟨.ok false, .ok 0, .error "proof api down", .ok true, .ok true⟩ :
        ChainWorld) = .ok false ∧
    (claim_and_transfer
      (⟨.ok false, .ok 0, .error "proof api down", .ok true, .ok true⟩ :
        ChainWorld) 7 9).2 = [] :=
  ⟨rfl, rfl⟩

/-- C7 (amended): a claim transaction is submitted only if the eligibility
check reported not-yet-claimed (in particular an already-claimed identity
never re-submits a claim), and a transfer is submitted only with a nonzero
amount; for an invocation that returns Ok these guards are exact: a claim
transaction was submitted iff eligibility reported not-yet-claimed, and a
transfer to the recipient was submitted iff the resulting allocation is
nonzero. -/
theorem claim_and_transfer_guards
    (w : ChainWorld) (walletAddr recipient : Nat) :
    (∀ acct amt proof st,
      (Tx.claimTx acct amt proof, st) ∈ (claim_and_transfer w walletAddr recipient).2 →
      w.hasClaimed = .ok false) ∧
    (∀ toA amt st,
      (Tx.transferTx toA amt, st) ∈ (claim_and_transfer w walletAddr recipient).2 →
      amt ≠ 0) ∧
    ((claim_and_transfer w walletAddr recipient).1 = .ok () →
      (w.hasClaimed = .ok false ↔
        ∃ amt proof st, (Tx.claimTx walletAddr amt proof, st) ∈
          (claim_and_transfer w walletAddr recipient).2)) ∧
    (∀ hc alloc, w.hasClaimed = .ok hc →
      (computeAllocation w walletAddr hc).1 = .ok alloc →
      (claim_and_transfer w walletAddr recipient).1 = .ok () →
      (alloc ≠ 0 ↔ ∃ st, (Tx.transferTx recipient alloc, st) ∈
        (claim_and_transfer w walletAddr recipient).2)) := by
  rcases hw : w.hasClaimed with e | hc
  · refine ⟨?_, ?_, ?_, ?_⟩
    · intro acct amt proof st hmem
      simp [claim_and_transfer, hw] at hmem
    · intro toA amt st hmem
      simp [claim_and_transfer, hw] at hmem
    · intro hok
      simp [claim_and_transfer, hw] at hok
    · intro hc' alloc hhc hca hok
      cases hhc
  · cases hc with
    | false =>
      rcases hpa : w.proofAndAmount with e | pa
      · refine ⟨?_, ?_, ?_, ?_⟩
        · intro acct amt proof st hmem
          simp [claim_and_transfer, computeAllocation, hw, hpa] at hmem
        · intro toA amt st hmem
          simp [claim_and_transfer, computeAllocation, hw, hpa] at hmem
        · intro hok
          simp [claim_and_transfer, computeAllocation, hw, hpa] at hok
        · intro hc' alloc hhc hca hok
          injection hhc with h
          subst h
          simp [computeAllocation, hpa] at hca
      · obtain ⟨proof, amt⟩ := pa
        rcases hcr : w.claimReceipt with e | st
        · refine ⟨?_, ?_, ?_, ?_⟩
          · intro acct amt' proof' st' hmem
            simp [claim_and_transfer, computeAllocation, hw, hpa, hcr] at hmem
          · intro toA amt' st' hmem
            simp [claim_and_transfer, computeAllocation, hw, hpa, hcr] at hmem
          · intro hok
            simp [claim_and_transfer, computeAllocation, hw, hpa, hcr] at hok
          · intro hc' alloc hhc hca hok
            injection hhc with h
            subst h
            simp [computeAllocation, hpa, hcr] at hca
        · by_cases hamt : amt = 0
          · refine ⟨?_, ?_, ?_, ?_⟩
            · intro acct amt' proof' st' hmem
              exact rfl
            · intro toA amt' st' hmem
              simp [claim_and_transfer, computeAllocation, hw, hpa, hcr, hamt] at hmem
            · intro hok
              refine ⟨fun _ => ⟨amt, proof, st, ?_⟩, fun _ => rfl⟩
              simp [claim_and_transfer, computeAllocation, hw, hpa, hcr, hamt]
            · intro hc' alloc hhc hca hok
              injection hhc with h
              subst h
              simp [computeAllocation, hpa, hcr] at hca
              subst hca
              constructor
              · intro hne
                exact absurd hamt hne
              · intro hex
                obtain ⟨st', hmem⟩ := hex
                simp [claim_and_transfer, computeAllocation, hw, hpa, hcr, hamt] at hmem
          · rcases ht : w.transferReceipt with e | st2
            · refine ⟨?_, ?_, ?_, ?_⟩
              · intro acct amt' proof' st' hmem
                exact rfl
              · intro toA amt' st' hmem
                simp [claim_and_transfer, computeAllocation, hw, hpa, hcr, hamt, ht] at hmem
              · intro hok
                simp [claim_and_transfer, computeAllocation, hw, hpa, hcr, hamt, ht] at hok
              · intro hc' alloc hhc hca hok
                simp [claim_and_transfer, computeAllocation, hw, hpa, hcr, hamt, ht] at hok
            · refine ⟨?_, ?_, ?_, ?_⟩
              · intro acct amt' proof' st' hmem
                exact rfl
              · intro toA amt' st' hmem
                simp [claim_and_transfer, computeAllocation, hw, hpa, hcr, hamt, ht] at hmem
                omega
              · intro hok
                refine ⟨fun _ => ⟨amt, proof, st, ?_⟩, fun _ => rfl⟩
                simp [claim_and_transfer, computeAllocation, hw, hpa, hcr, hamt, ht]
              · intro hc' alloc hhc hca hok
                injection hhc with h
                subst h
                simp [computeAllocation, hpa, hcr] at hca
                subst hca
                refine ⟨fun _ => ⟨st2, ?_⟩, fun _ => hamt⟩
                simp [claim_and_transfer, computeAllocation, hw, hpa, hcr, hamt, ht]
    | true =>
      rcases hb : w.balanceOf with e | bal
      · refine ⟨?_, ?_, ?_, ?_⟩
        · intro acct amt proof st hmem
          simp [claim_and_transfer, computeAllocation, hw, hb] at hmem
        · intro toA amt st hmem
          simp [claim_and_transfer, computeAllocation, hw, hb] at hmem
        · intro hok
          simp [claim_and_transfer, computeAllocation, hw, hb] at hok
        · intro hc' alloc hhc hca hok
          injection hhc with h
          subst h
          simp [computeAllocation, hb] at hca
      · by_cases hbal : bal = 0
        · refine ⟨?_, ?_, ?_, ?_⟩
          · intro acct amt proof st hmem
            simp [claim_and_transfer, computeAllocation, hw, hb, hbal] at hmem
          · intro toA amt st hmem
            simp [claim_and_transfer, computeAllocation, hw, hb, hbal] at hmem
          · intro hok
            constructor
            · intro h
              simp at h
            · intro hex
              obtain ⟨amt, proof, st', hmem⟩ := hex
              simp [claim_and_transfer, computeAllocation, hw, hb, hbal] at hmem
          · intro hc' alloc hhc hca hok
            injection hhc with h
            subst h
            simp [computeAllocation, hb] at hca
            subst hca
            constructor
            · intro hne
              exact absurd hbal hne
            · intro hex
              obtain ⟨st', hmem⟩ := hex
              simp [claim_and_transfer, computeAllocation, hw, hb, hbal] at hmem
        · rcases ht : w.transferReceipt with e | st
          · refine ⟨?_, ?_, ?_, ?_⟩
            · intro acct amt proof st' hmem
              simp [claim_and_transfer, computeAllocation, hw, hb, hbal, ht] at hmem
            · intro toA amt st' hmem
              simp [claim_and_transfer, computeAllocation, hw, hb, hbal, ht] at hmem
            · intro hok
              simp [claim_and_transfer, computeAllocation, hw, hb, hbal, ht] at hok
            · intro hc' alloc hhc hca hok
              simp [claim_and_transfer, computeAllocation, hw, hb, hbal, ht] at hok
          · refine ⟨?_, ?_, ?_, ?_⟩
            · intro acct amt proof st' hmem
              simp [claim_and_transfer, computeAllocation, hw, hb, hbal, ht] at hmem
            · intro toA amt st' hmem
              simp [claim_and_transfer, computeAllocation, hw, hb, hbal, ht] at hmem
              omega
            · intro hok
              constructor
              · intro h
                simp at h
              · intro hex
                obtain ⟨amt, proof, st', hmem⟩ := hex
                simp [claim_and_transfer, computeAllocation, hw, hb, hbal, ht] at hmem
            · intro hc' alloc hhc hca hok
              injection hhc with h
              subst h
              simp [computeAllocation, hb] at hca
              subst hca
              refine ⟨fun _ => ⟨st, ?_⟩, fun _ => hbal⟩
              simp [claim_and_transfer, computeAllocation, hw, hb, hbal, ht]

/-- Witness for C7 (amended) at a concrete world: not yet claimed, allocation
42, both transactions mined. -/
theorem claim_and_transfer_guards_witness :
    ((claim_and_transfer
        (⟨.ok false, .ok 0, .ok ([3], 42), .ok true, .ok true⟩ : ChainWorld)
        7 9).1 = .ok () ∧
     ChainWorld.hasClaimed
       (⟨.ok false, .ok 0, .ok ([3], 42), .ok true, .ok true⟩ : ChainWorld) =
       .ok false ∧
     (computeAllocation
        (⟨.ok false, .ok 0, .ok ([3], 42), .ok true, .ok true⟩ : ChainWorld)
        7 false).1 = .ok 42) ∧
    ((ChainWorld.hasClaimed
        (⟨.ok false, .ok 0, .ok ([3], 42), .ok true, .ok true⟩ : ChainWorld) =
        .ok false ↔
      ∃ amt proof st, (Tx.claimTx 7 amt proof, st) ∈
        (claim_and_transfer
          (⟨.ok false, .ok 0, .ok ([3], 42), .ok true, .ok true⟩ : ChainWorld)
          7 9).2) ∧
     (42 ≠ 0 ↔ ∃ st, (Tx.transferTx 9 42, st) ∈
        (claim_and_transfer
          (⟨.ok false, .ok 0, .ok ([3], 42), .ok true, .ok true⟩ : ChainWorld)
          7 9).2)) :=
  ⟨⟨by rfl, by rfl, by rfl⟩,
   (claim_and_transfer_guards
     (⟨.ok false, .ok 0, .ok ([3], 42), .ok true, .ok true⟩ : ChainWorld)
     7 9).2.2.1 (by rfl),
   (claim_and_transfer_guards
     (⟨.ok false, .ok 0, .ok ([3], 42), .ok true, .ok true⟩ : ChainWorld)
     7 9).2.2.2 false 42 (by rfl) (by rfl) (by rfl)⟩

lemma admissions_length (D : Nat) : ∀ (t : Nat) (wus : List WorkUnit),
    (admissions D t wus).length = wus.length
  | _, [] => rfl
  | t, wu :: rest => by simp [admissions, admissions_length D (t + D) rest]

/-- C8 counterexample: with two private keys and one recipient (mismatched
lengths), `claim_for_all` raises no error at all: `zip` silently truncates,
one task is spawned and runs to success — the program proceeds from
mismatched-length inputs instead of failing fatally at startup. -/
theorem mismatched_lengths_proceed :
    claim_for_all (fun u => some u) 1 ["u"] (fun _ _ => .ok) [1, 2] [10]
      [⟨0, 0⟩] = .ok (.exited ⟨[], [⟨1, 10⟩], [], [(⟨1, 10⟩, 1)], 1⟩) := rfl

/-- C8 (amended): there is no length check.  The fill loop pairs identities
with recipients by position (`zip`), silently dropping the excess of the
longer sequence, and — with a nonempty provider pool — spawns exactly
min(m, n) tasks without any startup error. -/
theorem zip_truncates_to_shorter
    (wallets recipients : List Nat) (D : Nat) (pool : List Endpoint)
    (hpool : pool ≠ []) :
    ∃ s0, fillPhase D pool (workUnits wallets recipients) initState = .ok s0 ∧
      s0.pending = workUnits wallets recipients ∧
      s0.spawns.length = min wallets.length recipients.length := by
  obtain ⟨s0, h⟩ := fillPhase_isOk D pool hpool (workUnits wallets recipients) initState
  obtain ⟨hpend, -, -, hsp, -⟩ := fillPhase_ok_fields D pool _ _ _ h
  refine ⟨s0, h, ?_, ?_⟩
  · simpa [initState] using hpend
  · rw [hsp]
    simp [initState, admissions_length, workUnits]

/-- Witness for C8 (amended): two keys, one recipient, one task spawned. -/
theorem zip_truncates_to_shorter_witness :
    ((["u"] : List Endpoint) ≠ []) ∧
    (∃ s0, fillPhase 1 ["u"] (workUnits [1, 2] [10]) initState = .ok s0 ∧
      s0.pending = workUnits [1, 2] [10] ∧
      s0.spawns.length = min ([1, 2] : List Nat).length ([10] : List Nat).length) :=
  ⟨by decide, zip_truncates_to_shorter [1, 2] [10] 1 ["u"] (by decide)⟩

/-- C9 counterexample: constructing the provider pool from an empty RPC url
list raises no error (it yields an empty pool), and with an empty batch the
whole run even completes normally with that empty pool — no startup-fatal
error is raised at construction. -/
theorem empty_pool_constructs_without_error :
    initProviders (fun u => some u) [] = some [] ∧
    claim_for_all (fun u => some u) 1 [] (fun _ _ => .ok) [] [] [] =
      .ok (.exited initState) :=
  ⟨rfl, rfl⟩

/-- C9 (amended): the empty-pool panic happens at the first endpoint
selection, not at pool construction: with an empty provider pool and at least
one work unit, `claim_for_all` panics at `providers.choose(..).unwrap()` in
the first fill iteration, before any task has been spawned and before any
workflow step has run. -/
theorem empty_pool_panics_at_first_selection
    (parseUrl : String → Option Endpoint) (D : Nat)
    (behav : WorkUnit → Nat → TaskOutcome)
    (wallets recipients : List Nat) (cs : List Compl)
    (w0 : WorkUnit) (rest : List WorkUnit)
    (hwus : workUnits wallets recipients = w0 :: rest) :
    claim_for_all parseUrl D [] behav wallets recipients cs =
      .error (.providerChooseFailed, ⟨[], [], [], [], D⟩) ∧
    OrchState.spawns ⟨[], [], [], [], D⟩ = [] ∧
    OrchState.successes ⟨[], [], [], [], D⟩ = [] := by
  refine ⟨?_, rfl, rfl⟩
  have hpool : initProviders parseUrl [] = some [] := rfl
  unfold claim_for_all
  rw [hpool, hwus]
  simp [fillPhase_empty_pool, initState]

/-- Witness for C9 (amended) at one work unit. -/
theorem empty_pool_panics_at_first_selection_witness :
    (workUnits [1] [5] = ⟨1, 5⟩ :: []) ∧
    (claim_for_all (fun u => some u) 3 [] (fun _ _ => .ok) [1] [5] [] =
      .error (.providerChooseFailed, ⟨[], [], [], [], 3⟩) ∧
     OrchState.spawns ⟨[], [], [], [], 3⟩ = [] ∧
     OrchState.successes ⟨[], [], [], [], 3⟩ = []) :=
  ⟨by decide,
   empty_pool_panics_at_first_selection (fun u => some u) 3 (fun _ _ => .ok)
     [1] [5] [] ⟨1, 5⟩ [] (by decide)⟩

lemma retryLoop_count_le (attempt : Nat → Except String String) :
    ∀ (fuel i : Nat), (retryLoop attempt fuel i).2 ≤ i + fuel := by
  intro fuel
  induction fuel with
  | zero => intro i; simp [retryLoop]
  | succ fuel ih =>
    intro i
    rcases h : attempt i with e | r
    · have := ih (i + 1)
      simp only [retryLoop, h]
      omega
    · simp only [retryLoop, h]
      omega

lemma retryLoop_all_fail (attempt : Nat → Except String String) :
    ∀ (fuel i : Nat), (∀ j, i ≤ j → j < i + fuel → ∃ e, attempt j = .error e) →
      retryLoop attempt fuel i = (.error "Amount of tries exceeded", i + fuel) := by
  intro fuel
  induction fuel with
  | zero => intro i hfail; simp [retryLoop]
  | succ fuel ih =>
    intro i hfail
    obtain ⟨e, he⟩ := hfail i le_rfl (by omega)
    have hrec := ih (i + 1) fun j hj1 hj2 => hfail j (by omega) (by omega)
    simp only [retryLoop, he, hrec]
    congr 1
    omega

lemma retryLoop_first_ok (attempt : Nat → Except String String) :
    ∀ (fuel i k : Nat) (r : String), k < fuel → attempt (i + k) = .ok r →
      (∀ j, i ≤ j → j < i + k → ∃ e, attempt j = .error e) →
      retryLoop attempt fuel i = (.ok r, i + k + 1) := by
  intro fuel
  induction fuel with
  | zero => intro i k r hk; omega
  | succ fuel ih =>
    intro i k r hk hok hfail
    rcases k with _ | k
    · simp only [Nat.add_zero] at hok
      simp [retryLoop, hok]
    · obtain ⟨e, he⟩ := hfail i le_rfl (by omega)
      have hok' : attempt (i + 1 + k) = .ok r := by
        have : i + 1 + k = i + (k + 1) := by omega
        rw [this]
        exact hok
      have hrec := ih (i + 1) k r (by omega) hok'
        (fun j hj1 hj2 => hfail j (by omega) (by omega))
      simp only [retryLoop, he, hrec]
      congr 1
      omega

/-- C10: with `max_retries = n`, `send_http_request_with_retries` performs at
most n attempts, returns the first successful response, fails with "Amount of
tries exceeded" after n consecutive failed attempts, makes no attempt at all
when n = 0, and defaults to 5 attempts when `max_retries` is `None`. -/
theorem http_retries_bounded (attempt : Nat → Except String String) (n : Nat) :
    (send_http_request_with_retries attempt (some n)).2 ≤ n ∧
    ((∀ i, i < n → ∃ e, attempt i = .error e) →
      send_http_request_with_retries attempt (some n) =
        (.error "Amount of tries exceeded", n)) ∧
    (∀ i r, i < n → attempt i = .ok r →
      (∀ j, j < i → ∃ e, attempt j = .error e) →
      send_http_request_with_retries attempt (some n) = (.ok r, i + 1)) ∧
    (n = 0 → send_http_request_with_retries attempt (some n) =
      (.error "Amount of tries exceeded", 0)) ∧
    send_http_request_with_retries attempt none =
      send_http_request_with_retries attempt (some 5) := by
  refine ⟨?_, ?_, ?_, ?_, rfl⟩
  · have := retryLoop_count_le attempt n 0
    simpa [send_http_request_with_retries] using this
  · intro hfail
    have := retryLoop_all_fail attempt n 0 fun j hj1 hj2 => hfail j (by omega)
    simpa [send_http_request_with_retries] using this
  · intro i r hi hok hfail
    have := retryLoop_first_ok attempt n 0 i r (by omega) (by simpa using hok)
      (fun j hj1 hj2 => hfail j (by omega))
    simpa [send_http_request_with_retries] using this
  · intro h
    subst h
    rfl

/-- Witness for C10: an attempt oracle failing once then succeeding, with
max_retries = 3: two attempts, first success returned. -/
theorem http_retries_bounded_witness :
    (send_http_request_with_retries
      (fun i => if i = 1 then .ok "r" else .error "e") (some 3)).2 ≤ 3 ∧
    send_http_request_with_retries
      (fun i => if i = 1 then .ok "r" else .error "e") (some 3) = (.ok "r", 2) :=
  ⟨(http_retries_bounded (fun i => if i = 1 then .ok "r" else .error "e") 3).1,
   (http_retries_bounded (fun i => if i = 1 then .ok "r" else .error "e") 3).2.2.1
     1 "r" (by omega) (by rfl)
     (by
       intro j hj
       have hj0 : j = 0 := by omega
       subst hj0
       exact ⟨"e", rfl⟩)⟩

end ScrollByeBye
